import Mathlib

/-!
Shallow embedding of the RaKUn2 keyphrase-extraction pipeline
(`rakun2/class_rakun.py`, class `RakunKeyphraseDetector`), together with
theorems settling the specification claims.

Modelling conventions:
* numeric term counts and scores are rationals (`ℚ`); the Python code uses
  ints that become floats after the multiplicative merge discount,
* Python character-class tests (`\w` of the compiled word regex,
  `str.isdigit`, the whitespace set of `str.strip`) are modelled for the
  ASCII range by explicit predicates,
* the personalized-PageRank computation performed by the external
  `networkx` library is an abstract parameter of the pipeline,
* `ℚ` division is total (`x / 0 = 0`) where Python would raise
  `ZeroDivisionError`; no claim exercises that point.
-/

namespace Rakun

/-- The hyperparameter record (`self.hyperparameters` after `__init__`
fills defaults).  `stopwords` is a list used only through membership. -/
structure Config where
  token_prune_len : Nat
  num_keywords : Nat
  alpha : ℚ
  max_iter : Nat
  merge_threshold : ℚ
  deduplication : Bool
  stopwords : List String

/-- ASCII model of Python's regex word character `\w`
(the detector's pattern is `(?u)\b\w\w+\b`). -/
def pyIsWordChar (c : Char) : Bool :=
  c.isAlphanum || c = '_'

/-- ASCII model of Python's `str.isdigit` on a single character. -/
def pyIsDigit (c : Char) : Bool :=
  c.isDigit

/-- ASCII model of the whitespace set stripped by Python's `str.strip()`. -/
def pyIsSpace (c : Char) : Bool :=
  c = ' ' || c = '\t' || c = '\n' || c = '\r' || c = '\x0b' || c = '\x0c'

/-- ASCII model of Python's `str.lower()`. -/
def pyLower (s : String) : String :=
  ⟨s.data.map Char.toLower⟩

/-- Maximal runs of word characters in a character list
(the accumulator `cur` holds the current run, reversed). -/
def wordRunsAux : List Char → List Char → List (List Char)
  | [], cur => if cur.isEmpty then [] else [cur.reverse]
  | c :: rest, cur =>
    if pyIsWordChar c then
      wordRunsAux rest (c :: cur)
    else if cur.isEmpty then
      wordRunsAux rest []
    else
      cur.reverse :: wordRunsAux rest []

/-- Model of `self.pattern.findall(document)` for the pattern `(?u)\b\w\w+\b`:
the maximal word-character runs of length at least 2, in order. -/
def fullTokensOf (l : List Char) : List String :=
  ((wordRunsAux l []).filter (fun r => 2 ≤ r.length)).map List.asString

/-- Python `str.strip()`: drop leading and trailing whitespace. -/
def pyStrip (l : List Char) : List Char :=
  ((l.dropWhile pyIsSpace).reverse.dropWhile pyIsSpace).reverse

/-- Model of `tokenize` (lines 258-281).  `space_factor = count(" ") / len(full_tokens)`
(0 when there are no full tokens); `space_factor < 0.5` is rendered exactly
as `2 * spaces < full.length`.  Character mode keeps characters of the
stripped document that are not `' '`, `'\n'` or `'，'`, then drops digit
characters (the residual `" " not in x` test of the source is kept). -/
def tokenize (doc : String) : List String :=
  let l := doc.data
  let full := fullTokensOf l
  let spaces := l.count ' '
  if full.length = 0 ∨ 2 * spaces < full.length then
    let chars := (pyStrip l).filter
      (fun c => !(c = ' ') && !(c = '\n') && !(c = '，'))
    ((chars.filter (fun c => !(pyIsDigit c) && !(c = ' '))).map
      (fun c => String.mk [c]))
  else
    full.filter (fun t => !(t.data.all pyIsDigit))

/-- Model of `compute_tf_scores`: occurrence count of each token, as a rational
(a key absent from the Python dict is modelled as count 0; the pipeline
only ever reads keys that are present). -/
def termCountsOf (tokens : List String) : String → ℚ :=
  fun t => (tokens.count t : ℚ)

/-- The adjacent pairs `(tokens[i], tokens[i+1])` of a token sequence. -/
def adjacentPairs (tokens : List String) : List (String × String) :=
  tokens.zip tokens.tail

/-- Model of `self.bigram_counts`: occurrences of a bigram in the pre-merge
token sequence. -/
def bigramCount (tokens : List String) (t1 t2 : String) : ℚ :=
  ((adjacentPairs tokens).count (t1, t2) : ℚ)

/-- Pointwise update of a term-count mapping (a Python dict store). -/
def updateF (f : String → ℚ) (k : String) (v : ℚ) : String → ℚ :=
  fun t => if t = k then v else f t

/-- The loop body of `merge_tokens` (lines 207-243), folded over the adjacent
pairs of the pre-merge sequence.  `bg` is the bigram-count mapping fixed
before the loop.  Returns `(tmp_tokens, merged, term_counts)`; `merged` is a
list used only through membership.  When neither token is a stopword and
either the cohesion test or the length test fails, the Python loop appends
nothing (`continue`, or falling out of the inner `if`); the trailing `else`
that emits `token1, token2` belongs to the stopword test. -/
def mergeBody (cfg : Config) (bg : String → String → ℚ) :
    List (String × String) → (String → ℚ) →
    List String × List String × (String → ℚ)
  | [], tc => ([], [], tc)
  | (t1, t2) :: rest, tc =>
    let c1 := tc t1
    let c2 := tc t2
    let bgc := bg t1 t2
    let bgs := (|c1 - bgc| + |c2 - bgc|) / (c1 + c2)
    if t1 ∉ cfg.stopwords ∧ t2 ∉ cfg.stopwords then
      if bgs < cfg.merge_threshold then
        if cfg.token_prune_len < t2.length ∧ cfg.token_prune_len < t1.length then
          let compound := t1 ++ " " ++ t2
          let tcA := updateF tc compound bgc
          let tcB := updateF tcA t1 (tcA t1 * cfg.merge_threshold)
          let tcC := updateF tcB t2 (tcB t2 * cfg.merge_threshold)
          let r := mergeBody cfg bg rest tcC
          (compound :: r.1, t1 :: t2 :: r.2.1, r.2.2)
        else
          mergeBody cfg bg rest tc
      else
        mergeBody cfg bg rest tc
    else
      let r := mergeBody cfg bg rest tc
      (t1 :: t2 :: r.1, r.2.1, r.2.2)

/-- Model of `merge_tokens` (lines 200-256): run the pair loop, then, when
deduplication is on, drop every occurrence of a token marked merged. -/
def merge_tokens (cfg : Config) (tokens : List String) (tc : String → ℚ) :
    List String × (String → ℚ) :=
  let r := mergeBody cfg (bigramCount tokens) (adjacentPairs tokens) tc
  let tmp := if cfg.deduplication then r.1.filter (fun t => t ∉ r.2.1) else r.1
  (tmp, r.2.2)

/-- Keep the first occurrence of each element (`seen` accumulates the
elements already kept): insertion order of dict / graph-node insertion. -/
def firstOccurAux {α : Type} [DecidableEq α] : List α → List α → List α
  | [], _ => []
  | x :: xs, seen =>
    if x ∈ seen then firstOccurAux xs seen
    else x :: firstOccurAux xs (x :: seen)

def firstOccur {α : Type} [DecidableEq α] (l : List α) : List α :=
  firstOccurAux l []

/-- Endpoints of the adjacency pairs in edge-insertion order
(`add_edge(u, v)` inserts node `u` then node `v`). -/
def edgeEndpoints (pairs : List (String × String)) : List String :=
  pairs.foldr (fun p acc => p.1 :: p.2 :: acc) []

/-- The node list of `self.G` in insertion order: nodes appear through edge
insertion over adjacent lowercased token pairs (`remove_edges_from` removes
edges, never nodes). -/
def graphNodes (tokens : List String) : List String :=
  firstOccur (edgeEndpoints (adjacentPairs (tokens.map pyLower)))

/-- The weighted edge list of `self.G` after self-loop removal: one entry per
distinct adjacent lowercased pair, weighted by its adjacency count, with
self-loops removed (lines 118-135). -/
def documentGraphEdges (tokens : List String) :
    List ((String × String) × ℚ) :=
  let adj := adjacentPairs (tokens.map pyLower)
  ((firstOccur adj).map (fun p => (p, ((adj.count p : ℚ))))).filter
    (fun e => !(e.1.1 = e.1.2))

/-- The personalization dict `{a: self.term_counts[a] for a in self.tokens}`,
as a total function (networkx treats missing keys as 0). -/
def personalizationOf (tokens : List String) (tc : String → ℚ) :
    String → ℚ :=
  fun a => if a ∈ tokens then tc a else 0

/-- Abstract interface of the external `networkx.pagerank` computation:
node list, weighted edge list, damping factor `alpha`, iteration cap
`max_iter`, personalization vector; yields a score per node. -/
def PageRankFn : Type :=
  List String → List ((String × String) × ℚ) → ℚ → Nat → (String → ℚ) →
    String → ℚ

/-- Model of `get_document_graph`, ranking part (lines 138-147): personalized
PageRank when the node count exceeds `num_keywords`, otherwise a uniform
base rank of 1.0 per node. -/
def baseNodeRanks (pr : PageRankFn) (cfg : Config) (tokens : List String)
    (tc : String → ℚ) : List (String × ℚ) :=
  let nodes := graphNodes tokens
  if cfg.num_keywords < nodes.length then
    nodes.map (fun k =>
      (k, pr nodes (documentGraphEdges tokens) cfg.alpha cfg.max_iter
            (personalizationOf tokens tc) k))
  else
    nodes.map (fun k => (k, (1 : ℚ)))

/-- Model of `get_document_graph`, final scaling (lines 149-155): each node's score
is its base rank times the token's character length. -/
def node_ranks (pr : PageRankFn) (cfg : Config) (tokens : List String)
    (tc : String → ℚ) : List (String × ℚ) :=
  (baseNodeRanks pr cfg tokens tc).map
    (fun p => (p.1, p.2 * (p.1.length : ℚ)))

/-- The filtering/deduplication loop of `combine_keywords` (lines 179-192):
skip stopword (by lowercase) and short tokens; keep the first occurrence of
each remaining token (`appeared_tokens`). -/
def filterRanked (cfg : Config) :
    List (String × ℚ) → List String → List (String × ℚ)
  | [], _ => []
  | (t, s) :: rest, seen =>
    if pyLower t ∈ cfg.stopwords ∨ t.length ≤ 2 then
      filterRanked cfg rest seen
    else if t ∈ seen then
      filterRanked cfg rest (t :: seen)
    else
      (t, s) :: filterRanked cfg rest (t :: seen)

/-- Stable insertion into a score-descending list (`sorted` with
`key=score, reverse=True` is stable: an earlier element precedes later
elements of equal score). -/
def insertDesc (x : String × ℚ) : List (String × ℚ) → List (String × ℚ)
  | [] => [x]
  | y :: ys => if y.2 ≤ x.2 then x :: y :: ys else y :: insertDesc x ys

/-- Stable sort by score, descending. -/
def sortDesc : List (String × ℚ) → List (String × ℚ)
  | [] => []
  | x :: xs => insertDesc x (sortDesc xs)

/-- Model of `combine_keywords` (lines 172-198). -/
def combine_keywords (cfg : Config) (ranks : List (String × ℚ)) :
    List (String × ℚ) :=
  sortDesc (filterRanked cfg ranks [])

/-- The two input forms accepted with `input_type="string"`. -/
inductive DocInput : Type
  | str (s : String)
  | lst (lines : List String)

/-- Split a character list on newline characters (Python
`document.split("\n")`). -/
def splitLines : List Char → List (List Char)
  | [] => [[]]
  | c :: rest =>
    if c = '\n' then [] :: splitLines rest
    else
      match splitLines rest with
      | [] => [[c]]
      | h :: t => (c :: h) :: t

/-- Model of `parse_input` for `input_type="string"` (lines 163-168): a list is
returned as-is, a string is split on newlines. -/
def parse_input : DocInput → List String
  | .str s => (splitLines s.data).map List.asString
  | .lst lines => lines

/-- Python `" ".join` at the character level. -/
def joinSp : List (List Char) → List Char
  | [] => []
  | [x] => x
  | x :: xs => x ++ ' ' :: joinSp xs

/-- Model of `self.document = " ".join(document)` (line 292). -/
def joinDocument (lines : List String) : String :=
  (joinSp (lines.map String.data)).asString

/-- Model of `find_keywords` after input parsing (lines 292-298): the pipeline on a
list of lines. -/
def findKeywordsOfLines (pr : PageRankFn) (cfg : Config)
    (lines : List String) : List (String × ℚ) :=
  let doc := joinDocument lines
  let toks := tokenize doc
  let tc := termCountsOf toks
  let m := merge_tokens cfg toks tc
  let ranks := node_ranks pr cfg m.1 m.2
  (combine_keywords cfg ranks).take cfg.num_keywords

/-- Model of `find_keywords` with `input_type="string"` (lines 283-298). -/
def find_keywords (pr : PageRankFn) (cfg : Config) (input : DocInput) :
    List (String × ℚ) :=
  findKeywordsOfLines pr cfg (parse_input input)

/-- A dummy stand-in for the external PageRank computation, used to
instantiate witnesses whose inputs only exercise the small-graph branch. -/
def dummyPR : PageRankFn := fun _ _ _ _ _ _ => 0

/-- A concrete configuration with the constructor's default numeric values
and an empty stopword list, used by witnesses and counterexamples. -/
def cfgNoStop : Config :=
  ⟨1, 10, 1/10, 100, 1/2, true, []⟩

/-- Specification-side tokenizer, following the amended C5 wording: in
word mode emit the word-pattern matches that are not digit-only; in
character mode emit one token per character of the whitespace-stripped
document, excluding the space character, the newline character, the
full-width comma, and digit characters.  To be compared with `tokenize`,
which is translated from the source. -/
def tokenizeSpec (doc : String) : List String :=
  let full := fullTokensOf doc.data
  let spaces := doc.data.count ' '
  if full.length = 0 ∨ 2 * spaces < full.length then
    ((pyStrip doc.data).filter
      (fun c =>
        !(c = ' ') && !(c = '\n') && !(c = '，') && !(pyIsDigit c))).map
      (fun c => String.mk [c])
  else
    full.filter (fun t => !(t.data.all pyIsDigit))

namespace PyInit

/-- The open key-value hyperparameter dict of `__init__` (lines 21-55),
restricted to the seven options the constructor fills: a field is `none`
when the key is absent. -/
structure Hyper where
  token_prune_len : Option Nat
  num_keywords : Option Nat
  alpha : Option ℚ
  max_iter : Option Nat
  merge_threshold : Option ℚ
  deduplication : Option Bool
  stopwords : Option (List String)
deriving DecidableEq

/-- A dict with every option omitted (the literal `{}`). -/
def emptyHyper : Hyper :=
  ⟨none, none, none, none, none, none, none⟩

/-- The body of `__init__`: each omitted option is set to its default;
`defStop` stands for the bundled stopword collection loaded from package
data (outside the core). -/
def fillDefaults (defStop : List String) (h : Hyper) : Hyper where
  token_prune_len := some (h.token_prune_len.getD 1)
  num_keywords := some (h.num_keywords.getD 10)
  alpha := some (h.alpha.getD (1/10))
  max_iter := some (h.max_iter.getD 100)
  merge_threshold := some (h.merge_threshold.getD (1/2))
  deduplication := some (h.deduplication.getD true)
  stopwords := some (h.stopwords.getD defStop)

/-- A heap of dict objects addressed by natural numbers, modelling Python
object identity: two references to the same address alias the same dict. -/
structure Heap where
  dicts : Nat → Hyper

/-- A detector instance holds a reference to its hyperparameter dict
(`self.hyperparameters = hyperparameters` stores the reference, it does
not copy). -/
structure Detector where
  hpAddr : Nat

/-- The address of the mutable default argument `hyperparameters={}`:
Python evaluates a default argument once, at function definition, so every
call that omits the argument receives this same object. -/
def defaultArgAddr : Nat := 0

/-- A heap whose every address holds an empty dict (address 0 models the
freshly created default-argument dict). -/
def initHeap : Heap :=
  ⟨fun _ => emptyHyper⟩

/-- Store a dict value at an address. -/
def heapSet (h : Heap) (a : Nat) (v : Hyper) : Heap :=
  ⟨fun x => if x = a then v else h.dicts x⟩

/-- Constructing a detector: the caller passes the address of its dict, or
`none` to use the shared default-argument object; `__init__` mutates that
dict in place, filling the defaults, and the instance keeps the
reference. -/
def construct (defStop : List String) (h : Heap) (arg : Option Nat) :
    Heap × Detector :=
  let a := arg.getD defaultArgAddr
  (heapSet h a (fillDefaults defStop (h.dicts a)), ⟨a⟩)

end PyInit

theorem mem_insertDesc {x p : String × ℚ} :
    ∀ {l : List (String × ℚ)}, p ∈ insertDesc x l → p = x ∨ p ∈ l
  | [] => by simp [insertDesc]
  | y :: ys => by
    intro hp
    rw [insertDesc] at hp
    by_cases hc : y.2 ≤ x.2
    · rw [if_pos hc] at hp
      rcases List.mem_cons.1 hp with rfl | hp
      · exact Or.inl rfl
      · exact Or.inr hp
    · rw [if_neg hc] at hp
      rcases List.mem_cons.1 hp with rfl | hp
      · exact Or.inr (List.mem_cons_self _ _)
      · rcases mem_insertDesc hp with rfl | hp
        · exact Or.inl rfl
        · exact Or.inr (List.mem_cons_of_mem _ hp)

theorem sorted_insertDesc (x : String × ℚ) :
    ∀ (l : List (String × ℚ)),
      List.Sorted (fun a b : String × ℚ => b.2 ≤ a.2) l →
      List.Sorted (fun a b : String × ℚ => b.2 ≤ a.2) (insertDesc x l)
  | [] => by simp [insertDesc]
  | y :: ys => by
    intro h
    rw [List.sorted_cons] at h
    rw [insertDesc]
    by_cases hc : y.2 ≤ x.2
    · rw [if_pos hc]
      refine List.sorted_cons.2 ⟨?_, List.sorted_cons.2 ⟨h.1, h.2⟩⟩
      intro b hb
      rcases List.mem_cons.1 hb with rfl | hb
      · exact hc
      · exact le_trans (h.1 b hb) hc
    · rw [if_neg hc]
      refine List.sorted_cons.2 ⟨?_, sorted_insertDesc x ys h.2⟩
      intro b hb
      rcases mem_insertDesc hb with rfl | hb
      · exact le_of_not_le hc
      · exact h.1 b hb

theorem sorted_sortDesc :
    ∀ (l : List (String × ℚ)),
      List.Sorted (fun a b : String × ℚ => b.2 ≤ a.2) (sortDesc l)
  | [] => by simp [sortDesc]
  | x :: xs => sorted_insertDesc x (sortDesc xs) (sorted_sortDesc xs)

theorem mem_sortDesc {p : String × ℚ} :
    ∀ {l : List (String × ℚ)}, p ∈ sortDesc l → p ∈ l
  | [] => by simp [sortDesc]
  | x :: xs => by
    intro hp
    rcases mem_insertDesc hp with rfl | hp
    · exact List.mem_cons_self _ _
    · exact List.mem_cons_of_mem _ (mem_sortDesc hp)

theorem mem_filterRanked (cfg : Config) :
    ∀ (l : List (String × ℚ)) (seen : List String) (p : String × ℚ),
      p ∈ filterRanked cfg l seen →
      p ∈ l ∧ pyLower p.1 ∉ cfg.stopwords ∧ 2 < p.1.length
  | [], _, p => by simp [filterRanked]
  | (t, s) :: rest, seen, p => by
    intro hp
    by_cases h1 : pyLower t ∈ cfg.stopwords ∨ t.length ≤ 2
    · rw [show filterRanked cfg ((t, s) :: rest) seen =
            filterRanked cfg rest seen by rw [filterRanked, if_pos h1]] at hp
      have h := mem_filterRanked cfg rest seen p hp
      exact ⟨List.mem_cons_of_mem _ h.1, h.2⟩
    · by_cases h2 : t ∈ seen
      · rw [show filterRanked cfg ((t, s) :: rest) seen =
              filterRanked cfg rest (t :: seen) by
                rw [filterRanked, if_neg h1, if_pos h2]] at hp
        have h := mem_filterRanked cfg rest (t :: seen) p hp
        exact ⟨List.mem_cons_of_mem _ h.1, h.2⟩
      · rw [show filterRanked cfg ((t, s) :: rest) seen =
              (t, s) :: filterRanked cfg rest (t :: seen) by
                rw [filterRanked, if_neg h1, if_neg h2]] at hp
        push_neg at h1
        rcases List.mem_cons.1 hp with rfl | hp
        · exact ⟨List.mem_cons_self _ _, h1.1, h1.2⟩
        · have h := mem_filterRanked cfg rest (t :: seen) p hp
          exact ⟨List.mem_cons_of_mem _ h.1, h.2⟩

theorem mem_combine_keywords (cfg : Config) (ranks : List (String × ℚ))
    (p : String × ℚ) (hp : p ∈ combine_keywords cfg ranks) :
    p ∈ ranks ∧ pyLower p.1 ∉ cfg.stopwords ∧ 2 < p.1.length :=
  mem_filterRanked cfg ranks [] p (mem_sortDesc hp)

theorem find_keywords_eq (pr : PageRankFn) (cfg : Config) (input : DocInput) :
    find_keywords pr cfg input =
      (combine_keywords cfg
        (node_ranks pr cfg
          (merge_tokens cfg (tokenize (joinDocument (parse_input input)))
            (termCountsOf (tokenize (joinDocument (parse_input input))))).1
          (merge_tokens cfg (tokenize (joinDocument (parse_input input)))
            (termCountsOf (tokenize (joinDocument (parse_input input))))).2)).take
        cfg.num_keywords := rfl

/-- C3: for every input document and configuration, the returned list has
length at most `num_keywords` and its scores are non-increasing by
position. -/
theorem c3_output_bounded_and_sorted (pr : PageRankFn) (cfg : Config)
    (input : DocInput) :
    (find_keywords pr cfg input).length ≤ cfg.num_keywords ∧
      List.Sorted (fun a b : String × ℚ => b.2 ≤ a.2)
        (find_keywords pr cfg input) := by
  rw [find_keywords_eq]
  constructor
  · rw [List.length_take]
    exact min_le_left _ _
  · exact List.Pairwise.sublist (List.take_sublist _ _) (sorted_sortDesc _)

/-- C4: every keyword in the returned list has a lowercased form outside the
configured stopword set and has length at least 3 characters. -/
theorem c4_output_no_stopwords_min_length (pr : PageRankFn) (cfg : Config)
    (input : DocInput) (p : String × ℚ)
    (hp : p ∈ find_keywords pr cfg input) :
    pyLower p.1 ∉ cfg.stopwords ∧ 3 ≤ p.1.length := by
  rw [find_keywords_eq] at hp
  have hmem : p ∈ combine_keywords cfg _ :=
    List.Sublist.mem hp (List.take_sublist _ _)
  have h := mem_combine_keywords cfg _ p hmem
  exact ⟨h.2.1, h.2.2⟩

/-- Witness for C4 at the concrete document `"red car red car"`: the
compound keyword `"red car"` is produced and satisfies the property. -/
theorem c4_witness :
    (("red car", (7 : ℚ)) ∈
        find_keywords dummyPR cfgNoStop (.str "red car red car")) ∧
      pyLower "red car" ∉ cfgNoStop.stopwords ∧ 3 ≤ "red car".length :=
  ⟨of_decide_eq_true (by with_unfolding_all rfl),
    c4_output_no_stopwords_min_length dummyPR cfgNoStop
      (.str "red car red car") ("red car", (7 : ℚ))
      (of_decide_eq_true (by with_unfolding_all rfl))⟩

theorem compound_ne_left (t1 t2 : String) : t1 ++ " " ++ t2 ≠ t1 := by
  intro h
  have hl := congrArg String.length h
  rw [String.length_append, String.length_append] at hl
  have : String.length " " = 1 := rfl
  omega

theorem compound_ne_right (t1 t2 : String) : t1 ++ " " ++ t2 ≠ t2 := by
  intro h
  have hl := congrArg String.length h
  rw [String.length_append, String.length_append] at hl
  have : String.length " " = 1 := rfl
  omega

/-- C1 counterexample: in the sequence `["aa", "aa"]` the adjacent pair
`("aa", "aa")` has no stopword and fails the cohesion test
(`bgs = 1/2 ≥ merge_threshold = 1/2`), yet the merge pass returns the empty
token sequence — the pair is dropped, not passed through unmerged. -/
theorem c1_counterexample :
    ("aa" ∉ cfgNoStop.stopwords) ∧
      ¬ ((|termCountsOf ["aa", "aa"] "aa" - bigramCount ["aa", "aa"] "aa" "aa"| +
            |termCountsOf ["aa", "aa"] "aa" - bigramCount ["aa", "aa"] "aa" "aa"|) /
              (termCountsOf ["aa", "aa"] "aa" + termCountsOf ["aa", "aa"] "aa") <
            cfgNoStop.merge_threshold) ∧
      (merge_tokens cfgNoStop ["aa", "aa"] (termCountsOf ["aa", "aa"])).1 = [] :=
  of_decide_eq_true (by with_unfolding_all rfl)

theorem mergeBody_skip (cfg : Config) (bg : String → String → ℚ)
    (t1 t2 : String) (rest : List (String × String)) (tc : String → ℚ)
    (h1 : t1 ∉ cfg.stopwords) (h2 : t2 ∉ cfg.stopwords)
    (hfail : ¬ ((|tc t1 - bg t1 t2| + |tc t2 - bg t1 t2|) /
        (tc t1 + tc t2) < cfg.merge_threshold ∧
        cfg.token_prune_len < t2.length ∧ cfg.token_prune_len < t1.length)) :
    mergeBody cfg bg ((t1, t2) :: rest) tc = mergeBody cfg bg rest tc := by
  by_cases hb : (|tc t1 - bg t1 t2| + |tc t2 - bg t1 t2|) /
      (tc t1 + tc t2) < cfg.merge_threshold
  · have hlen : ¬ (cfg.token_prune_len < t2.length ∧
        cfg.token_prune_len < t1.length) := fun hl => hfail ⟨hb, hl⟩
    simp only [mergeBody]
    rw [if_pos ⟨h1, h2⟩, if_pos hb, if_neg hlen]
  · simp only [mergeBody]
    rw [if_pos ⟨h1, h2⟩, if_neg hb]

/-- C1 amended: for an adjacent pair `(t1, t2)` with neither token a
stopword, when the merge conditions fail (cohesion score at least
`merge_threshold`, or either token not longer than `token_prune_len`), the
merger emits neither `t1` nor `t2` for that pair: the pair contributes
nothing to the output sequence (only pairs containing a stopword are passed
through unmerged). -/
theorem c1_nonmerged_pair_dropped (cfg : Config) (tokens : List String)
    (t1 t2 : String) (rest : List (String × String)) (tc : String → ℚ)
    (h1 : t1 ∉ cfg.stopwords) (h2 : t2 ∉ cfg.stopwords)
    (hfail : ¬ ((|tc t1 - bigramCount tokens t1 t2| +
        |tc t2 - bigramCount tokens t1 t2|) / (tc t1 + tc t2) <
          cfg.merge_threshold ∧
        cfg.token_prune_len < t2.length ∧ cfg.token_prune_len < t1.length)) :
    mergeBody cfg (bigramCount tokens) ((t1, t2) :: rest) tc =
      mergeBody cfg (bigramCount tokens) rest tc :=
  mergeBody_skip cfg (bigramCount tokens) t1 t2 rest tc h1 h2 hfail

/-- Witness for the amended C1 at the concrete pair `("aa", "aa")` of the
sequence `["aa", "aa"]`. -/
theorem c1_nonmerged_pair_dropped_witness :
    (("aa" ∉ cfgNoStop.stopwords) ∧
      ¬ ((|termCountsOf ["aa", "aa"] "aa" - bigramCount ["aa", "aa"] "aa" "aa"| +
            |termCountsOf ["aa", "aa"] "aa" - bigramCount ["aa", "aa"] "aa" "aa"|) /
              (termCountsOf ["aa", "aa"] "aa" + termCountsOf ["aa", "aa"] "aa") <
            cfgNoStop.merge_threshold ∧
          cfgNoStop.token_prune_len < "aa".length ∧
          cfgNoStop.token_prune_len < "aa".length)) ∧
      mergeBody cfgNoStop (bigramCount ["aa", "aa"])
          ([("aa", "aa")]) (termCountsOf ["aa", "aa"]) =
        mergeBody cfgNoStop (bigramCount ["aa", "aa"]) []
          (termCountsOf ["aa", "aa"]) :=
  ⟨of_decide_eq_true (by with_unfolding_all rfl),
    c1_nonmerged_pair_dropped cfgNoStop ["aa", "aa"] "aa" "aa" []
      (termCountsOf ["aa", "aa"])
      (of_decide_eq_true (by with_unfolding_all rfl))
      (of_decide_eq_true (by with_unfolding_all rfl))
      (of_decide_eq_true (by with_unfolding_all rfl))⟩

/-- C2: per adjacent pair `(t1, t2)` of the pre-merge sequence, with `bgc`
the pre-merge bigram count and `bgs` the cohesion score: when neither token
is a stopword, the merger emits the single compound `"t1 t2"` recording its
count as `bgc` and multiplying both original counts by `merge_threshold`
exactly when `bgs < merge_threshold` and both lengths exceed
`token_prune_len` (a token merged twice is discounted twice,
multiplicatively); otherwise no merge happens, and a pair containing a
stopword is always passed through unmerged. -/
theorem c2_merge_step (cfg : Config) (tokens : List String) (t1 t2 : String)
    (rest : List (String × String)) (tc : String → ℚ) :
    (t1 ∉ cfg.stopwords ∧ t2 ∉ cfg.stopwords →
      (((|tc t1 - bigramCount tokens t1 t2| +
          |tc t2 - bigramCount tokens t1 t2|) / (tc t1 + tc t2) <
            cfg.merge_threshold ∧
          cfg.token_prune_len < t2.length ∧ cfg.token_prune_len < t1.length) →
        ∃ tc2 : String → ℚ,
          mergeBody cfg (bigramCount tokens) ((t1, t2) :: rest) tc =
            ((t1 ++ " " ++ t2) ::
                (mergeBody cfg (bigramCount tokens) rest tc2).1,
              t1 :: t2 :: (mergeBody cfg (bigramCount tokens) rest tc2).2.1,
              (mergeBody cfg (bigramCount tokens) rest tc2).2.2) ∧
          tc2 (t1 ++ " " ++ t2) = bigramCount tokens t1 t2 ∧
          (t1 ≠ t2 → tc2 t1 = tc t1 * cfg.merge_threshold ∧
            tc2 t2 = tc t2 * cfg.merge_threshold) ∧
          (t1 = t2 →
            tc2 t1 = tc t1 * cfg.merge_threshold * cfg.merge_threshold) ∧
          (∀ u, u ≠ t1 → u ≠ t2 → u ≠ t1 ++ " " ++ t2 → tc2 u = tc u)) ∧
      (¬ ((|tc t1 - bigramCount tokens t1 t2| +
          |tc t2 - bigramCount tokens t1 t2|) / (tc t1 + tc t2) <
            cfg.merge_threshold ∧
          cfg.token_prune_len < t2.length ∧ cfg.token_prune_len < t1.length) →
        mergeBody cfg (bigramCount tokens) ((t1, t2) :: rest) tc =
          mergeBody cfg (bigramCount tokens) rest tc)) ∧
    (¬ (t1 ∉ cfg.stopwords ∧ t2 ∉ cfg.stopwords) →
      mergeBody cfg (bigramCount tokens) ((t1, t2) :: rest) tc =
        (t1 :: t2 :: (mergeBody cfg (bigramCount tokens) rest tc).1,
          (mergeBody cfg (bigramCount tokens) rest tc).2.1,
          (mergeBody cfg (bigramCount tokens) rest tc).2.2)) := by
  refine ⟨fun hsw => ⟨fun hcond => ?_, fun hfail =>
    mergeBody_skip cfg (bigramCount tokens) t1 t2 rest tc hsw.1 hsw.2
      hfail⟩, fun hsw => ?_⟩
  · refine ⟨updateF (updateF (updateF tc (t1 ++ " " ++ t2)
        (bigramCount tokens t1 t2)) t1
          (updateF tc (t1 ++ " " ++ t2) (bigramCount tokens t1 t2) t1 *
            cfg.merge_threshold)) t2
        (updateF (updateF tc (t1 ++ " " ++ t2) (bigramCount tokens t1 t2)) t1
            (updateF tc (t1 ++ " " ++ t2) (bigramCount tokens t1 t2) t1 *
              cfg.merge_threshold) t2 * cfg.merge_threshold), ?_, ?_, ?_, ?_, ?_⟩
    · simp only [mergeBody]
      rw [if_pos hsw, if_pos hcond.1, if_pos ⟨hcond.2.1, hcond.2.2⟩]
    · simp only [updateF, if_neg (compound_ne_right t1 t2),
        if_neg (compound_ne_left t1 t2)]
      simp
    · intro hne
      constructor
      · simp only [updateF, if_neg hne,
          if_neg (fun h : t1 = t1 ++ " " ++ t2 =>
            compound_ne_left t1 t2 h.symm)]
        simp
      · simp only [updateF,
          if_neg (fun h : t2 = t1 ++ " " ++ t2 =>
            compound_ne_right t1 t2 h.symm),
          if_neg (fun h : t2 = t1 => hne h.symm)]
        simp
    · intro heq
      subst heq
      simp only [updateF,
        if_neg (fun h : t1 = t1 ++ " " ++ t1 =>
          compound_ne_left t1 t1 h.symm)]
      simp
    · intro u hu1 hu2 huc
      simp only [updateF, if_neg hu2, if_neg hu1, if_neg huc]
  · simp only [mergeBody]
    rw [if_neg hsw]

/-- Witness for C2 at the merging pair `("red", "car")` of
`["red", "car"]`. -/
theorem c2_merge_step_witness :
    ("red" ∉ cfgNoStop.stopwords ∧ "car" ∉ cfgNoStop.stopwords) ∧
      ((|termCountsOf ["red", "car"] "red" -
            bigramCount ["red", "car"] "red" "car"| +
          |termCountsOf ["red", "car"] "car" -
            bigramCount ["red", "car"] "red" "car"|) /
            (termCountsOf ["red", "car"] "red" +
              termCountsOf ["red", "car"] "car") <
          cfgNoStop.merge_threshold ∧
        cfgNoStop.token_prune_len < "car".length ∧
        cfgNoStop.token_prune_len < "red".length) ∧
      (∃ tc2 : String → ℚ,
        mergeBody cfgNoStop (bigramCount ["red", "car"])
            ([("red", "car")]) (termCountsOf ["red", "car"]) =
          (("red" ++ " " ++ "car") ::
              (mergeBody cfgNoStop (bigramCount ["red", "car"]) [] tc2).1,
            "red" :: "car" ::
              (mergeBody cfgNoStop (bigramCount ["red", "car"]) [] tc2).2.1,
            (mergeBody cfgNoStop (bigramCount ["red", "car"]) [] tc2).2.2) ∧
        tc2 ("red" ++ " " ++ "car") = bigramCount ["red", "car"] "red" "car" ∧
        ("red" ≠ "car" →
          tc2 "red" = termCountsOf ["red", "car"] "red" *
              cfgNoStop.merge_threshold ∧
            tc2 "car" = termCountsOf ["red", "car"] "car" *
              cfgNoStop.merge_threshold) ∧
        ("red" = "car" →
          tc2 "red" = termCountsOf ["red", "car"] "red" *
            cfgNoStop.merge_threshold * cfgNoStop.merge_threshold) ∧
        (∀ u, u ≠ "red" → u ≠ "car" → u ≠ "red" ++ " " ++ "car" →
          tc2 u = termCountsOf ["red", "car"] u)) :=
  ⟨of_decide_eq_true (by with_unfolding_all rfl),
    of_decide_eq_true (by with_unfolding_all rfl),
    ((c2_merge_step cfgNoStop ["red", "car"] "red" "car" []
        (termCountsOf ["red", "car"])).1
      (of_decide_eq_true (by with_unfolding_all rfl))).1
      (of_decide_eq_true (by with_unfolding_all rfl))⟩

/-- C9: after construction, the token-adjacency graph contains no self-loop
edge; this is the edge list handed to the ranking stage. -/
theorem c9_no_self_loops (tokens : List String)
    (e : (String × String) × ℚ) (he : e ∈ documentGraphEdges tokens) :
    e.1.1 ≠ e.1.2 := by
  unfold documentGraphEdges at he
  have h := (List.mem_filter.1 he).2
  simpa using h

/-- Witness for C9: the graph of `["ab", "cd"]` has a concrete edge, whose
endpoints differ. -/
theorem c9_witness :
    ((("ab", "cd"), (1 : ℚ)) ∈ documentGraphEdges ["ab", "cd"]) ∧
      "ab" ≠ "cd" :=
  ⟨of_decide_eq_true (by with_unfolding_all rfl),
    c9_no_self_loops ["ab", "cd"] (("ab", "cd"), (1 : ℚ))
      (of_decide_eq_true (by with_unfolding_all rfl))⟩

/-- C5 counterexample: in `"a\tb"` no word-pattern token exists
(`space_factor = 0`, character mode), and the tab — a whitespace
character — is emitted as a token, where the claim requires whitespace
characters to be excluded. -/
theorem c5_counterexample :
    (fullTokensOf ("a\tb".data)).length = 0 ∧ pyIsSpace '\t' = true ∧
      "\t" ∈ tokenize "a\tb" :=
  of_decide_eq_true (by with_unfolding_all rfl)

/-- C5 amended: word mode emits the word-pattern matches excluding
digit-only tokens; character mode emits one token per character of the
whitespace-stripped document, excluding the space character, the newline
character, the full-width comma, and digit characters (not all whitespace);
an empty document has no word-pattern matches (so `space_factor = 0`) and
yields an empty token sequence. -/
theorem c5_tokenize_amended (doc : String) :
    tokenize doc = tokenizeSpec doc ∧
      (doc = "" → fullTokensOf doc.data = [] ∧ tokenize doc = []) := by
  constructor
  · unfold tokenize tokenizeSpec
    dsimp only
    split
    · rw [List.filter_filter]
      congr 1
      apply List.filter_congr
      intro c _
      by_cases h1 : c = ' ' <;> by_cases h2 : c = '\n' <;>
        by_cases h3 : c = '，' <;> by_cases h4 : pyIsDigit c = true <;>
        simp [h1, h2, h3, h4]
    · rfl
  · intro h
    subst h
    exact ⟨rfl, rfl⟩

/-- Witness for the amended C5 at the empty document. -/
theorem c5_tokenize_amended_witness :
    fullTokensOf ("".data) = [] ∧ tokenize "" = [] :=
  (c5_tokenize_amended "").2 rfl

/-- C7: extracting from the raw string `"line1\nline2"` and from the
pre-split sequence `["line1", "line2"]` yields the same output list. -/
theorem c7_input_form_equivalence (pr : PageRankFn) (cfg : Config) :
    find_keywords pr cfg (.str "line1\nline2") =
      find_keywords pr cfg (.lst ["line1", "line2"]) := by
  unfold find_keywords
  rw [show parse_input (.str "line1\nline2") =
      parse_input (.lst ["line1", "line2"]) from
    of_decide_eq_true (by with_unfolding_all rfl)]

theorem splitLines_ne_nil : ∀ l : List Char, splitLines l ≠ []
  | [] => by simp [splitLines]
  | c :: rest => by
    rw [splitLines]
    by_cases h : c = '\n'
    · rw [if_pos h]
      simp
    · rw [if_neg h]
      rcases hr : splitLines rest with _ | ⟨h0, t⟩ <;> simp

theorem joinSp_cons (x : List Char) (ys : List (List Char)) (h : ys ≠ []) :
    joinSp (x :: ys) = x ++ ' ' :: joinSp ys := by
  rcases ys with _ | ⟨y, t⟩
  · exact absurd rfl h
  · rfl

theorem joinSp_splitLines : ∀ l : List Char,
    joinSp (splitLines l) = l.map (fun c => if c = '\n' then ' ' else c)
  | [] => rfl
  | c :: rest => by
    obtain ⟨h0, t, hr⟩ : ∃ h0 t, splitLines rest = h0 :: t := by
      rcases e : splitLines rest with _ | ⟨a, b⟩
      · exact absurd e (splitLines_ne_nil rest)
      · exact ⟨a, b, rfl⟩
    rw [splitLines]
    by_cases h : c = '\n'
    · rw [if_pos h, hr, joinSp_cons _ _ (by simp), ← hr,
        joinSp_splitLines rest]
      simp [h]
    · rw [if_neg h, hr]
      rcases t with _ | ⟨t0, t'⟩
      · have ih := joinSp_splitLines rest
        rw [hr] at ih
        simp only [joinSp] at ih ⊢
        simp [h, ih]
      · have ih := joinSp_splitLines rest
        rw [hr, joinSp_cons _ _ (by simp)] at ih
        rw [joinSp_cons _ _ (by simp)]
        simp [h, ← ih]

theorem pyIsSpace_not_word {c : Char} (h : pyIsSpace c = true) :
    pyIsWordChar c = false := by
  simp only [pyIsSpace, Bool.or_eq_true, decide_eq_true_eq] at h
  rcases h with ((((h | h) | h) | h) | h) | h <;> subst h <;> rfl

theorem wordRunsAux_no_word :
    ∀ l : List Char, (∀ c ∈ l, pyIsWordChar c = false) →
      wordRunsAux l [] = []
  | [], _ => rfl
  | c :: rest, h => by
    have hc : ¬ (pyIsWordChar c = true) := by
      simp [h c (List.mem_cons_self c rest)]
    rw [wordRunsAux, if_neg hc,
      if_pos (show ([] : List Char).isEmpty = true from rfl)]
    exact wordRunsAux_no_word rest
      (fun d hd => h d (List.mem_cons_of_mem _ hd))

theorem fullTokensOf_space (l : List Char)
    (h : ∀ c ∈ l, pyIsSpace c = true) : fullTokensOf l = [] := by
  unfold fullTokensOf
  rw [wordRunsAux_no_word l (fun c hc => pyIsSpace_not_word (h c hc))]
  rfl

theorem dropWhile_eq_nil_of_all (p : Char → Bool) :
    ∀ l : List Char, (∀ c ∈ l, p c = true) → l.dropWhile p = []
  | [], _ => rfl
  | c :: rest, h => by
    rw [List.dropWhile_cons, if_pos (h c (List.mem_cons_self c rest))]
    exact dropWhile_eq_nil_of_all p rest
      (fun d hd => h d (List.mem_cons_of_mem _ hd))

theorem pyStrip_space (l : List Char)
    (h : ∀ c ∈ l, pyIsSpace c = true) : pyStrip l = [] := by
  unfold pyStrip
  rw [dropWhile_eq_nil_of_all _ l h]
  rfl

theorem tokenize_space (doc : String)
    (h : ∀ c ∈ doc.data, pyIsSpace c = true) : tokenize doc = [] := by
  unfold tokenize
  dsimp only
  rw [fullTokensOf_space doc.data h,
    if_pos (show ([] : List String).length = 0 ∨
      2 * List.count ' ' doc.data < ([] : List String).length from
        Or.inl rfl),
    pyStrip_space doc.data h]
  rfl

theorem joinDocument_space (s : String)
    (h : ∀ c ∈ s.data, pyIsSpace c = true) :
    ∀ c ∈ (joinDocument (parse_input (.str s))).data, pyIsSpace c = true := by
  have hmap : List.map String.data
      (List.map List.asString (splitLines s.data)) = splitLines s.data := by
    rw [List.map_map]
    exact List.map_id'' (fun l => rfl) _
  intro c hc
  have hd : (joinDocument (parse_input (.str s))).data =
      joinSp (splitLines s.data) := by
    show (joinSp ((List.map List.asString
      (splitLines s.data)).map String.data)) = _
    rw [hmap]
  rw [hd, joinSp_splitLines] at hc
  obtain ⟨d, hd1, hd2⟩ := List.mem_map.1 hc
  by_cases hn : d = '\n'
  · rw [if_pos hn] at hd2
    subst hd2
    rfl
  · rw [if_neg hn] at hd2
    subst hd2
    exact h d hd1

theorem findKeywordsOfLines_no_tokens (pr : PageRankFn) (cfg : Config)
    (lines : List String) (h : tokenize (joinDocument lines) = []) :
    findKeywordsOfLines pr cfg lines = [] := by
  unfold findKeywordsOfLines
  dsimp only
  rw [h]
  have hm : merge_tokens cfg [] (termCountsOf []) =
      ([], termCountsOf []) := by
    unfold merge_tokens
    cases hd : cfg.deduplication <;>
      simp [adjacentPairs, mergeBody, hd]
  rw [hm]
  dsimp only
  have hr : node_ranks pr cfg [] (termCountsOf []) = [] := by
    unfold node_ranks baseNodeRanks
    simp [graphNodes, adjacentPairs, edgeEndpoints, firstOccur, firstOccurAux]
  rw [hr]
  simp [combine_keywords, filterRanked, sortDesc]

/-- C8: an empty or whitespace-only document with `input_type="string"`
yields an empty output list (empty token sequence, empty graph, empty
output), with no error. -/
theorem c8_whitespace_empty_output (pr : PageRankFn) (cfg : Config)
    (s : String) (hs : ∀ c ∈ s.data, pyIsSpace c = true) :
    find_keywords pr cfg (.str s) = [] := by
  unfold find_keywords
  exact findKeywordsOfLines_no_tokens pr cfg _
    (tokenize_space _ (joinDocument_space s hs))

/-- Witness for C8 at the whitespace-only document `" "`. -/
theorem c8_witness :
    (∀ c ∈ (" ").data, pyIsSpace c = true) ∧
      find_keywords dummyPR cfgNoStop (.str " ") = [] :=
  ⟨of_decide_eq_true (by with_unfolding_all rfl),
    c8_whitespace_empty_output dummyPR cfgNoStop " "
      (of_decide_eq_true (by with_unfolding_all rfl))⟩

/-- C6: on a graph with at most `num_keywords` nodes every node gets base
rank 1.0 (PageRank is skipped); on a larger graph the abstract personalized
PageRank runs with the configured `alpha` and `max_iter`; in both cases the
final score is base rank times token character length, so on a small graph
the surviving output is ordered by token length, descending. -/
theorem c6_ranking_and_scaling (pr : PageRankFn) (cfg : Config)
    (tokens : List String) (tc : String → ℚ) :
    ((graphNodes tokens).length ≤ cfg.num_keywords →
      baseNodeRanks pr cfg tokens tc =
        (graphNodes tokens).map (fun k => (k, (1 : ℚ)))) ∧
    (cfg.num_keywords < (graphNodes tokens).length →
      baseNodeRanks pr cfg tokens tc =
        (graphNodes tokens).map (fun k =>
          (k, pr (graphNodes tokens) (documentGraphEdges tokens) cfg.alpha
            cfg.max_iter (personalizationOf tokens tc) k))) ∧
    node_ranks pr cfg tokens tc =
      (baseNodeRanks pr cfg tokens tc).map
        (fun p => (p.1, p.2 * (p.1.length : ℚ))) ∧
    ((graphNodes tokens).length ≤ cfg.num_keywords →
      List.Sorted (fun a b : String × ℚ => b.1.length ≤ a.1.length)
        (combine_keywords cfg (node_ranks pr cfg tokens tc))) := by
  refine ⟨fun h => ?_, fun h => ?_, rfl, fun h => ?_⟩
  · unfold baseNodeRanks
    rw [if_neg (not_lt.2 h)]
  · unfold baseNodeRanks
    rw [if_pos h]
  · have hsc : ∀ p ∈ node_ranks pr cfg tokens tc,
        p.2 = (p.1.length : ℚ) := by
      intro p hp
      unfold node_ranks baseNodeRanks at hp
      rw [if_neg (not_lt.2 h), List.map_map] at hp
      obtain ⟨k, _, hk⟩ := List.mem_map.1 hp
      rw [← hk]
      simp
    have hs := sorted_sortDesc
      (filterRanked cfg (node_ranks pr cfg tokens tc) [])
    unfold combine_keywords
    refine List.Pairwise.imp_of_mem ?_ hs
    intro a b ha hb hab
    have ha2 :=
      (mem_combine_keywords cfg (node_ranks pr cfg tokens tc) a ha).1
    have hb2 :=
      (mem_combine_keywords cfg (node_ranks pr cfg tokens tc) b hb).1
    rw [hsc a ha2, hsc b hb2] at hab
    exact_mod_cast hab

/-- Witness for C6 at the two-node graph of `["ab", "cd"]` (small-graph
branch). -/
theorem c6_witness :
    ((graphNodes ["ab", "cd"]).length ≤ cfgNoStop.num_keywords) ∧
      baseNodeRanks dummyPR cfgNoStop ["ab", "cd"]
          (termCountsOf ["ab", "cd"]) =
        (graphNodes ["ab", "cd"]).map (fun k => (k, (1 : ℚ))) ∧
      List.Sorted (fun a b : String × ℚ => b.1.length ≤ a.1.length)
        (combine_keywords cfgNoStop
          (node_ranks dummyPR cfgNoStop ["ab", "cd"]
            (termCountsOf ["ab", "cd"]))) :=
  ⟨of_decide_eq_true (by with_unfolding_all rfl),
    (c6_ranking_and_scaling dummyPR cfgNoStop ["ab", "cd"]
        (termCountsOf ["ab", "cd"])).1
      (of_decide_eq_true (by with_unfolding_all rfl)),
    (c6_ranking_and_scaling dummyPR cfgNoStop ["ab", "cd"]
        (termCountsOf ["ab", "cd"])).2.2.2
      (of_decide_eq_true (by with_unfolding_all rfl))⟩

/-- C10: `__init__` mutates the caller-supplied hyperparameter dict in
place, inserting a default for every omitted option
(`token_prune_len = 1`, `num_keywords = 10`, `alpha = 0.1`,
`max_iter = 100`, `merge_threshold = 0.5`, `deduplication = true`,
`stopwords` = bundled list); and since the mutable default argument is
evaluated once, all detectors constructed without an explicit argument
alias one dict, so a change through one instance is visible through the
others. -/
theorem c10_init_mutates_and_shares (defStop : List String)
    (h : PyInit.Heap) (a : Nat) :
    ((PyInit.construct defStop h (some a)).2.hpAddr = a ∧
      (PyInit.construct defStop h (some a)).1.dicts a =
        PyInit.fillDefaults defStop (h.dicts a) ∧
      ((h.dicts a).token_prune_len = none →
        ((PyInit.construct defStop h (some a)).1.dicts a).token_prune_len =
          some 1) ∧
      ((h.dicts a).num_keywords = none →
        ((PyInit.construct defStop h (some a)).1.dicts a).num_keywords =
          some 10) ∧
      ((h.dicts a).alpha = none →
        ((PyInit.construct defStop h (some a)).1.dicts a).alpha =
          some (1/10)) ∧
      ((h.dicts a).max_iter = none →
        ((PyInit.construct defStop h (some a)).1.dicts a).max_iter =
          some 100) ∧
      ((h.dicts a).merge_threshold = none →
        ((PyInit.construct defStop h (some a)).1.dicts a).merge_threshold =
          some (1/2)) ∧
      ((h.dicts a).deduplication = none →
        ((PyInit.construct defStop h (some a)).1.dicts a).deduplication =
          some true) ∧
      ((h.dicts a).stopwords = none →
        ((PyInit.construct defStop h (some a)).1.dicts a).stopwords =
          some defStop)) ∧
    ((PyInit.construct defStop h none).2.hpAddr =
        (PyInit.construct defStop
          (PyInit.construct defStop h none).1 none).2.hpAddr ∧
      ∀ v : PyInit.Hyper,
        (PyInit.heapSet
            (PyInit.construct defStop
              (PyInit.construct defStop h none).1 none).1
            (PyInit.construct defStop h none).2.hpAddr v).dicts
          (PyInit.construct defStop
            (PyInit.construct defStop h none).1 none).2.hpAddr = v) := by
  constructor
  · refine ⟨rfl, ?_, ?_, ?_, ?_, ?_, ?_, ?_, ?_⟩
    · simp [PyInit.construct, PyInit.heapSet]
    · intro hf
      simp [PyInit.construct, PyInit.heapSet, PyInit.fillDefaults, hf]
    · intro hf
      simp [PyInit.construct, PyInit.heapSet, PyInit.fillDefaults, hf]
    · intro hf
      simp [PyInit.construct, PyInit.heapSet, PyInit.fillDefaults, hf]
    · intro hf
      simp [PyInit.construct, PyInit.heapSet, PyInit.fillDefaults, hf]
    · intro hf
      simp [PyInit.construct, PyInit.heapSet, PyInit.fillDefaults, hf]
    · intro hf
      simp [PyInit.construct, PyInit.heapSet, PyInit.fillDefaults, hf]
    · intro hf
      simp [PyInit.construct, PyInit.heapSet, PyInit.fillDefaults, hf]
  · exact ⟨rfl, fun v => rfl⟩

/-- Witness for C10: a concrete heap with an empty dict at address 3. -/
theorem c10_witness :
    (PyInit.construct [] PyInit.initHeap (some 3)).2.hpAddr = 3 ∧
      ((PyInit.construct [] PyInit.initHeap
          (some 3)).1.dicts 3).token_prune_len = some 1 ∧
      ((PyInit.construct [] PyInit.initHeap
          (some 3)).1.dicts 3).num_keywords = some 10 ∧
      (PyInit.construct [] PyInit.initHeap none).2.hpAddr =
        (PyInit.construct []
          (PyInit.construct [] PyInit.initHeap none).1 none).2.hpAddr :=
  ⟨(c10_init_mutates_and_shares [] PyInit.initHeap 3).1.1,
    (c10_init_mutates_and_shares [] PyInit.initHeap 3).1.2.2.1 rfl,
    (c10_init_mutates_and_shares [] PyInit.initHeap 3).1.2.2.2.1 rfl,
    (c10_init_mutates_and_shares [] PyInit.initHeap 3).2.1⟩

end Rakun
